import Mathlib

/-!
Shallow embedding of the wascc lattice-client (Rust) for verification.

Source files embedded: src/lib.rs, src/controlplane.rs, src/events.rs,
src/main.rs. The NATS transport, serde byte-level parsing, UUID and clock
are external collaborators; they appear as explicit parameters (a message
is represented by its parse result, a fresh event id and timestamp are
inputs). All other definitions are translated directly from the source.
-/

/-- A JSON value, restricted to the shapes produced by the serde
serialization of the types in this repository (strings, booleans and
objects). Objects keep their fields in serialization order. -/
inductive Json where
  | str (s : String)
  | jbool (b : Bool)
  | obj (fields : List (String × Json))

/-- Events on the lattice bus; translated field-for-field from the Rust
enum BusEvent in src/events.rs. -/
inductive BusEvent where
  | HostStarted (host : String)
  | HostStopped (host : String)
  | ActorStarting (actor : String) (host : String)
  | ActorStarted (actor : String) (host : String)
  | ActorStopped (actor : String) (host : String)
  | ActorUpdating (actor : String) (host : String)
  | ActorUpdateComplete (actor : String) (success : Bool) (host : String)
  | ProviderLoaded (capid : String) (instance_name : String) (host : String)
  | ProviderRemoved (capid : String) (instance_name : String) (host : String)
  | ActorBindingCreated (host : String) (actor : String) (capid : String)
      (instance_name : String)
  | ActorBindingRemoved (host : String) (actor : String) (capid : String)
      (instance_name : String)
  | ActorBecameHealthy (actor : String) (host : String)
  | ActorBecameUnhealthy (actor : String) (host : String)
deriving DecidableEq, Repr

/-- The constant EVENT_TYPE_PREFIX from src/events.rs (renamed here). -/
def eventTypeStem : String := "wasmbus.events"

namespace BusEvent

/-- BusEvent::event_type from src/events.rs: the dotted type tag of the
variant, prefixed with the constant stem. -/
def event_type (e : BusEvent) : String :=
  let suffix :=
    match e with
    | HostStarted _ => "host_started"
    | HostStopped _ => "host_stopped"
    | ActorStarting _ _ => "actor_starting"
    | ActorStarted _ _ => "actor_started"
    | ActorStopped _ _ => "actor_stopped"
    | ActorUpdating _ _ => "actor_updating"
    | ActorUpdateComplete _ _ _ => "actor_update_complete"
    | ProviderLoaded _ _ _ => "provider_loaded"
    | ProviderRemoved _ _ _ => "provider_removed"
    | ActorBindingCreated _ _ _ _ => "actor_binding_created"
    | ActorBindingRemoved _ _ _ _ => "actor_binding_removed"
    | ActorBecameHealthy _ _ => "actor_became_healthy"
    | ActorBecameUnhealthy _ _ => "actor_became_unhealthy"
  eventTypeStem ++ "." ++ suffix

/-- BusEvent::subject from src/events.rs: the routing subject derived from
the variant's identifying fields. -/
def subject (e : BusEvent) : String :=
  match e with
  | HostStarted h => h
  | HostStopped h => h
  | ActorStarting actor _ => actor
  | ActorStarted actor _ => actor
  | ActorStopped actor _ => actor
  | ActorUpdating actor _ => actor
  | ActorUpdateComplete actor _ _ => actor
  | ProviderLoaded capid inst _ => capid ++ "." ++ inst
  | ProviderRemoved capid inst _ => capid ++ "." ++ inst
  | ActorBindingCreated _ actor capid inst => actor ++ "." ++ capid ++ "." ++ inst
  | ActorBindingRemoved _ actor capid inst => actor ++ "." ++ capid ++ "." ++ inst
  | ActorBecameHealthy actor _ => actor
  | ActorBecameUnhealthy actor _ => actor

end BusEvent

/-- Serde-derived JSON serialization of BusEvent (externally tagged enum,
fields in declaration order), as produced by serde_json::to_string in the
From impl in src/events.rs. -/
def busEventToJson (e : BusEvent) : Json :=
  match e with
  | .HostStarted h => .obj [("HostStarted", .str h)]
  | .HostStopped h => .obj [("HostStopped", .str h)]
  | .ActorStarting a h => .obj [("ActorStarting", .obj [("actor", .str a), ("host", .str h)])]
  | .ActorStarted a h => .obj [("ActorStarted", .obj [("actor", .str a), ("host", .str h)])]
  | .ActorStopped a h => .obj [("ActorStopped", .obj [("actor", .str a), ("host", .str h)])]
  | .ActorUpdating a h => .obj [("ActorUpdating", .obj [("actor", .str a), ("host", .str h)])]
  | .ActorUpdateComplete a s h =>
      .obj [("ActorUpdateComplete",
        .obj [("actor", .str a), ("success", .jbool s), ("host", .str h)])]
  | .ProviderLoaded c i h =>
      .obj [("ProviderLoaded",
        .obj [("capid", .str c), ("instance_name", .str i), ("host", .str h)])]
  | .ProviderRemoved c i h =>
      .obj [("ProviderRemoved",
        .obj [("capid", .str c), ("instance_name", .str i), ("host", .str h)])]
  | .ActorBindingCreated h a c i =>
      .obj [("ActorBindingCreated",
        .obj [("host", .str h), ("actor", .str a), ("capid", .str c),
              ("instance_name", .str i)])]
  | .ActorBindingRemoved h a c i =>
      .obj [("ActorBindingRemoved",
        .obj [("host", .str h), ("actor", .str a), ("capid", .str c),
              ("instance_name", .str i)])]
  | .ActorBecameHealthy a h =>
      .obj [("ActorBecameHealthy", .obj [("actor", .str a), ("host", .str h)])]
  | .ActorBecameUnhealthy a h =>
      .obj [("ActorBecameUnhealthy", .obj [("actor", .str a), ("host", .str h)])]

/-- Field lookup in a JSON object, first match wins (as serde does). -/
def jLookup : List (String × Json) → String → Option Json
  | [], _ => none
  | (k, v) :: rest, key => if k = key then some v else jLookup rest key

/-- Extracts a JSON string value. -/
def jGetStr : Option Json → Option String
  | some (.str s) => some s
  | _ => none

/-- Extracts a JSON boolean value. -/
def jGetBool : Option Json → Option Bool
  | some (.jbool b) => some b
  | _ => none

/-- Decodes a struct-variant payload carrying actor and host fields. -/
def decodeActorHost (mk : String → String → BusEvent) (v : Json) : Option BusEvent :=
  match v with
  | .obj fields =>
      match jGetStr (jLookup fields "actor"), jGetStr (jLookup fields "host") with
      | some a, some h => some (mk a h)
      | _, _ => none
  | _ => none

/-- Decodes a struct-variant payload carrying capid, instance_name and
host fields. -/
def decodeCapInstHost (mk : String → String → String → BusEvent) (v : Json) :
    Option BusEvent :=
  match v with
  | .obj fields =>
      match jGetStr (jLookup fields "capid"), jGetStr (jLookup fields "instance_name"),
            jGetStr (jLookup fields "host") with
      | some c, some i, some h => some (mk c i h)
      | _, _, _ => none
  | _ => none

/-- Decodes a struct-variant payload carrying host, actor, capid and
instance_name fields. -/
def decodeBindingFields (mk : String → String → String → String → BusEvent) (v : Json) :
    Option BusEvent :=
  match v with
  | .obj fields =>
      match jGetStr (jLookup fields "host"), jGetStr (jLookup fields "actor"),
            jGetStr (jLookup fields "capid"), jGetStr (jLookup fields "instance_name") with
      | some h, some a, some c, some i => some (mk h a c i)
      | _, _, _, _ => none
  | _ => none

/-- Serde-derived JSON deserialization of BusEvent (the inverse direction
used by serde_json::from_str in Client::watch_events): an externally
tagged enum expects an object with exactly one key, the variant tag. -/
def busEventFromJson (j : Json) : Option BusEvent :=
  match j with
  | .obj [(tag, v)] =>
      if tag = "HostStarted" then (jGetStr (some v)).map .HostStarted
      else if tag = "HostStopped" then (jGetStr (some v)).map .HostStopped
      else if tag = "ActorStarting" then decodeActorHost .ActorStarting v
      else if tag = "ActorStarted" then decodeActorHost .ActorStarted v
      else if tag = "ActorStopped" then decodeActorHost .ActorStopped v
      else if tag = "ActorUpdating" then decodeActorHost .ActorUpdating v
      else if tag = "ActorUpdateComplete" then
        match v with
        | .obj fields =>
            match jGetStr (jLookup fields "actor"), jGetBool (jLookup fields "success"),
                  jGetStr (jLookup fields "host") with
            | some a, some s, some h => some (.ActorUpdateComplete a s h)
            | _, _, _ => none
        | _ => none
      else if tag = "ProviderLoaded" then decodeCapInstHost .ProviderLoaded v
      else if tag = "ProviderRemoved" then decodeCapInstHost .ProviderRemoved v
      else if tag = "ActorBindingCreated" then decodeBindingFields .ActorBindingCreated v
      else if tag = "ActorBindingRemoved" then decodeBindingFields .ActorBindingRemoved v
      else if tag = "ActorBecameHealthy" then decodeActorHost .ActorBecameHealthy v
      else if tag = "ActorBecameUnhealthy" then decodeActorHost .ActorBecameUnhealthy v
      else none
  | _ => none

/-- The CloudEvents 1.0 envelope from src/events.rs. The data field holds
the serialized BusEvent; it is modelled at the JSON level (the byte-string
layer is serde_json, an external collaborator). -/
structure CloudEvent where
  cloud_events_version : String
  event_type : String
  event_type_version : String
  source : String
  event_id : String
  event_time : String
  content_type : String
  subject : Option String
  data : Json

/-- From BusEvent for CloudEvent (src/events.rs): wraps an event in a
fresh envelope. The freshly generated UUID and current UTC time are
external inputs, passed as parameters. -/
def CloudEvent.fromBusEvent (event : BusEvent) (freshId : String) (now : String) :
    CloudEvent :=
  { cloud_events_version := "1.0"
  , event_type := event.event_type
  , event_type_version := "0.1"
  , source := "https://wascc.dev/lattice/events"
  , subject := some event.subject
  , event_id := freshId
  , event_time := now
  , content_type := "application/json"
  , data := busEventToJson event }

/-- Outcome of the subscription handler closure installed by
Client::watch_events for one incoming message: either a decoded event is
sent to the channel, or an unwrap on a failed decode panics, killing the
handler. -/
inductive HandlerOutcome where
  | delivered (e : BusEvent)
  | panicked
deriving Repr

/-- The handler closure in Client::watch_events (src/lib.rs lines
197-202). The message payload is represented by its parse result as a
CloudEvent (serde_json::from_slice is external); the source calls unwrap
on that result and on the inner BusEvent decode, so a failed decode
panics instead of being skipped. -/
def watchHandler (parsedEnvelope : Option CloudEvent) : HandlerOutcome :=
  match parsedEnvelope with
  | none => .panicked
  | some ce =>
      match busEventFromJson ce.data with
      | none => .panicked
      | some be => .delivered be

/-- An overview of host information (HostProfile in src/lib.rs); labels
modelled as an association list standing for the HashMap. -/
structure HostProfile where
  id : String
  labels : List (String × String)
  uptime_ms : Nat
deriving DecidableEq, Repr

/-- Claims of an actor (wascap::prelude::Claims, an external crate):
treated as an opaque payload token, per the spec's scope. -/
structure ActorClaims where
  raw : String
deriving DecidableEq, Repr

/-- An instance of a capability (HostedCapability in src/lib.rs); the
external CapabilityDescriptor is opaque. -/
structure HostedCapability where
  binding_name : String
  descriptor : String
deriving DecidableEq, Repr

/-- A configuration binding from an actor to a capability (Binding in
src/lib.rs). -/
structure Binding where
  actor : String
  capability_id : String
  binding_name : String
  configuration : List (String × String)
deriving DecidableEq, Repr

/-- A response to a lattice inventory probe (InventoryResponse in
src/lib.rs). -/
inductive InventoryResponse where
  | Host (profile : HostProfile)
  | Actors (host : String) (actors : List ActorClaims)
  | Bindings (host : String) (bindings : List Binding)
  | Capabilities (host : String) (capabilities : List HostedCapability)
deriving DecidableEq, Repr

/-- Errors surfaced by client operations. The source uses boxed dynamic
errors; the provenance distinctions are kept here. -/
inductive LatticeError where
  | decodeError
  | timeout
  | transport
  | unexpectedAck (ack_actor : String) (ack_host : String)
deriving DecidableEq, Repr

/-- The lattice client (Client in src/lib.rs). The NATS connection handle
is external; the call timeout (a Duration, kept in milliseconds) and the
optional namespace are the client's only other state. The source field
named namespace is called ns here (Lean keyword). -/
structure Client where
  timeoutMs : Nat
  ns : Option String
deriving DecidableEq, Repr

/-- Client::gen_subject from src/lib.rs: prefixes the subject with the
namespace when one is set. -/
def gen_subject (c : Client) (subject : String) : String :=
  match c.ns with
  | some s => s ++ ".wasmbus." ++ subject
  | none => "wasmbus." ++ subject

/-- The constant CPLANE_PREFIX from src/controlplane.rs (renamed here). -/
def cplaneRoot : String := "control"

/-- The constant LAUNCH_ACTOR from src/controlplane.rs. -/
def LAUNCH_ACTOR : String := "actor.launch"

/-- The constant TERMINATE_ACTOR from src/controlplane.rs. -/
def TERMINATE_ACTOR : String := "actor.terminate"

/-- The constant AUCTION_REQ from src/controlplane.rs. -/
def AUCTION_REQ : String := "auction.request"

/-- Client::gen_launch_actor_subject from src/controlplane.rs. -/
def gen_launch_actor_subject (c : Client) (host : String) : String :=
  gen_subject c (cplaneRoot ++ "." ++ host ++ "." ++ LAUNCH_ACTOR)

/-- Client::gen_terminate_actor_subject from src/controlplane.rs. -/
def gen_terminate_actor_subject (c : Client) (host : String) : String :=
  gen_subject c (cplaneRoot ++ "." ++ host ++ "." ++ TERMINATE_ACTOR)

/-- The HashMap entry().and_modify(extend).or_insert() pattern used by the
probe aggregation loops in src/lib.rs: when the host key is present its
list is extended with the new records, otherwise a new entry is inserted.
The map is modelled as an association list with unique keys. -/
def mergeInsert {α : Type} : List (String × List α) → String → List α →
    List (String × List α)
  | [], h, b => [(h, b)]
  | (k, v) :: m, h, b =>
      if k = h then (k, v ++ b) :: m else (k, v) :: mergeInsert m h b

/-- The common shape of the get_bindings / get_actors / get_capabilities
loops in src/lib.rs: each reply message is represented by its serde parse
result (none is a malformed payload, which aborts the whole probe via the
question-mark operator); a reply of the probed variant is merged into the
per-host map, any other variant falls through the if-let and is skipped.
Only messages arriving before the call timeout are in the input list. -/
def probeAggregate {α : Type} (extract : InventoryResponse → Option (String × List α)) :
    List (Option InventoryResponse) → List (String × List α) →
    Except LatticeError (List (String × List α))
  | [], acc => .ok acc
  | none :: _, _ => .error .decodeError
  | some ir :: rest, acc =>
      match extract ir with
      | some (h, b) => probeAggregate extract rest (mergeInsert acc h b)
      | none => probeAggregate extract rest acc

/-- The if-let arm of Client::get_bindings. -/
def extractBindings : InventoryResponse → Option (String × List Binding)
  | .Bindings host b => some (host, b)
  | _ => none

/-- The if-let arm of Client::get_actors. -/
def extractActors : InventoryResponse → Option (String × List ActorClaims)
  | .Actors host a => some (host, a)
  | _ => none

/-- The if-let arm of Client::get_capabilities. -/
def extractCapabilities : InventoryResponse → Option (String × List HostedCapability)
  | .Capabilities host caps => some (host, caps)
  | _ => none

/-- Client::get_bindings from src/lib.rs. -/
def get_bindings (msgs : List (Option InventoryResponse)) :
    Except LatticeError (List (String × List Binding)) :=
  probeAggregate extractBindings msgs []

/-- Client::get_actors from src/lib.rs. -/
def get_actors (msgs : List (Option InventoryResponse)) :
    Except LatticeError (List (String × List ActorClaims)) :=
  probeAggregate extractActors msgs []

/-- Client::get_capabilities from src/lib.rs. -/
def get_capabilities (msgs : List (Option InventoryResponse)) :
    Except LatticeError (List (String × List HostedCapability)) :=
  probeAggregate extractCapabilities msgs []

/-- Client::get_hosts from src/lib.rs: unlike the other three probes, it
pushes each Host reply onto a flat vector (no keying by host id); a
malformed reply aborts the probe, a reply of another variant is
skipped. -/
def get_hosts : List (Option InventoryResponse) →
    Except LatticeError (List HostProfile)
  | [] => .ok []
  | none :: _ => .error .decodeError
  | some ir :: rest =>
      match get_hosts rest with
      | .error e => .error e
      | .ok hosts =>
          match ir with
          | .Host h => .ok (h :: hosts)
          | _ => .ok hosts

/-- A request to all hosts to launch an actor (LaunchAuctionRequest in
src/controlplane.rs). Constraints modelled as an association list
standing for the HashMap. -/
structure LaunchAuctionRequest where
  actor_id : String
  constraints : List (String × String)
deriving DecidableEq, Repr

/-- A positive auction response (LaunchAuctionResponse in
src/controlplane.rs). -/
structure LaunchAuctionResponse where
  host_id : String
deriving DecidableEq, Repr

/-- A command to a specific host to load and start an actor
(LaunchCommand in src/controlplane.rs). The call site in src/lib.rs also
passes a revision; only the actor id is part of the struct as declared. -/
structure LaunchCommand where
  actor_id : String
deriving DecidableEq, Repr

/-- A command to a specific host to shut down an actor (TerminateCommand
in src/controlplane.rs). -/
structure TerminateCommand where
  actor_id : String
deriving DecidableEq, Repr

/-- The acknowledgement a host returns for a launch command (LaunchAck in
src/controlplane.rs). -/
structure LaunchAck where
  actor_id : String
  host : String
deriving DecidableEq, Repr

/-- Client::perform_launch_auction from src/lib.rs: every reply arriving
before the call timeout is parsed as a LaunchAuctionResponse and pushed;
a malformed reply aborts the call. Each message is represented by its
serde parse result. -/
def perform_launch_auction : List (Option LaunchAuctionResponse) →
    Except LatticeError (List LaunchAuctionResponse)
  | [] => .ok []
  | none :: _ => .error .decodeError
  | some r :: rest =>
      match perform_launch_auction rest with
      | .error e => .error e
      | .ok results => .ok (r :: results)

/-- The constant AUCTION_TIMEOUT_SECONDS from src/lib.rs. -/
def AUCTION_TIMEOUT_SECONDS : Nat := 5

/-- Client::launch_actor_on_host from src/lib.rs: a single request/reply
exchange on the host-addressed launch subject. The reply is represented
by the transport outcome of nc.request_timeout (none means the fixed
5-second wait elapsed with no reply) and, inside, by the serde parse
result of the reply payload. The ack is returned as parsed, with no
correlation check here. -/
def launch_actor_on_host (reply : Option (Option LaunchAck)) :
    Except LatticeError LaunchAck :=
  match reply with
  | none => .error .timeout
  | some none => .error .decodeError
  | some (some ack) => .ok ack

/-- The wait bound, in milliseconds, of the timeout_iter loop of each
inventory probe in src/lib.rs: the caller-supplied call timeout. -/
def probeWaitMs (c : Client) : Nat := c.timeoutMs

/-- The wait bound, in milliseconds, of the timeout_iter loop of
Client::perform_launch_auction: the caller-supplied call timeout. -/
def auctionWaitMs (c : Client) : Nat := c.timeoutMs

/-- The wait bound, in milliseconds, of the nc.request_timeout call in
Client::launch_actor_on_host: the fixed Duration::from_secs
(AUCTION_TIMEOUT_SECONDS), independent of the client's call timeout. -/
def launchWaitMs (_ : Client) : Nat := AUCTION_TIMEOUT_SECONDS * 1000

/-- Client::stop_actor_on_host from src/lib.rs: serializes a
TerminateCommand and publishes it on the host-addressed terminate
subject. The publish and flush outcomes of the external transport are
parameters; the flush result is discarded by the source (let _ = ...),
and no reply is awaited. Returns the published subject and command
alongside the result for inspection. -/
def stop_actor_on_host (c : Client) (actor_id : String) (host_id : String)
    (publishRes : Except LatticeError Unit) (_flushRes : Except LatticeError Unit) :
    Except LatticeError Unit × String × TerminateCommand :=
  let subj := gen_terminate_actor_subject c host_id
  let msg : TerminateCommand := { actor_id := actor_id }
  match publishRes with
  | .error e => (.error e, subj, msg)
  | .ok _ => (.ok (), subj, msg)

/-- The acknowledgement correlation step of start_actor in src/main.rs
(lines 152-155): after launch_actor_on_host returns an ack, the launch
flow fails when the ack's actor_id differs from the requested actor or
its host differs from the addressed host id; otherwise the ack is kept. -/
def startActorAckCheck (actor : String) (host_id : String) (ack : LaunchAck) :
    Except LatticeError LaunchAck :=
  if ack.actor_id ≠ actor ∨ ack.host ≠ host_id then
    .error (.unexpectedAck ack.actor_id ack.host)
  else
    .ok ack

/-- The addressed-launch step of start_actor in src/main.rs: the call to
Client::launch_actor_on_host followed by the acknowledgement correlation
check on its result. -/
def launchFlow (actor : String) (host_id : String) (reply : Option (Option LaunchAck)) :
    Except LatticeError LaunchAck :=
  match launch_actor_on_host reply with
  | .error e => .error e
  | .ok ack => startActorAckCheck actor host_id ack

/-- First-match lookup in an association list from host ids to record
lists; the view of the HashMap the probe results are read through. -/
def lookupHost {α : Type} : List (String × List α) → String → List α
  | [], _ => []
  | (k, v) :: m, h => if k = h then v else lookupHost m h

/-- The records that the replies from host h contribute to a probe, in
arrival order: the concatenation of the record lists of every reply of
the probed variant whose host field is h. -/
def repliesFor {α : Type} (extract : InventoryResponse → Option (String × List α))
    (h : String) (msgs : List (Option InventoryResponse)) : List α :=
  (msgs.filterMap (fun om =>
    match om with
    | some ir =>
        match extract ir with
        | some (h', b) => if h' = h then some b else none
        | none => none
    | none => none)).flatten

/-- The host profiles carried by the Host replies of a probe run, in
arrival order. -/
def hostProfilesIn (msgs : List (Option InventoryResponse)) : List HostProfile :=
  msgs.filterMap (fun om =>
    match om with
    | some (.Host p) => some p
    | _ => none)

/-- A dotted subject built from a root segment and an ordered list of
path parts, the way the call sites of gen_subject assemble their
argument with format strings. -/
def dottedSubject (root : String) (parts : List String) : String :=
  parts.foldl (fun acc p => acc ++ "." ++ p) root

/-- A well-formed subject segment: non-empty and dot-free. -/
def segOk (s : String) : Prop := s ≠ "" ∧ '.' ∉ s.data

instance (s : String) : Decidable (segOk s) := by
  unfold segOk; infer_instance

/-- The character-level tail that a list of path parts contributes to a
dotted subject: each part preceded by a dot separator. -/
def joinTail (ps : List (List Char)) : List Char :=
  (ps.map (fun p => '.' :: p)).flatten



/-! Theorems. -/

/-- C2: for every BusEvent variant e, wrapping e into a CloudEvent
envelope (serializing e into the envelope's data field) and then decoding
the data field back into a BusEvent yields an event equal to e, for any
fresh event id and timestamp stamped on the envelope. -/
theorem busEvent_envelope_roundtrip (e : BusEvent) (freshId now : String) :
    busEventFromJson (CloudEvent.fromBusEvent e freshId now).data = some e := by
  cases e <;> rfl

/-- C8: the envelope's derived routing subject follows the per-variant
table: host id for host events, actor id for actor lifecycle and health
events, capid.instance_name for provider events, and
actor.capid.instance_name for binding events. -/
theorem envelope_subject_table (a h c i fid t : String) (s : Bool) :
    (CloudEvent.fromBusEvent (.HostStarted h) fid t).subject = some h ∧
    (CloudEvent.fromBusEvent (.HostStopped h) fid t).subject = some h ∧
    (CloudEvent.fromBusEvent (.ActorStarting a h) fid t).subject = some a ∧
    (CloudEvent.fromBusEvent (.ActorStarted a h) fid t).subject = some a ∧
    (CloudEvent.fromBusEvent (.ActorStopped a h) fid t).subject = some a ∧
    (CloudEvent.fromBusEvent (.ActorUpdating a h) fid t).subject = some a ∧
    (CloudEvent.fromBusEvent (.ActorUpdateComplete a s h) fid t).subject = some a ∧
    (CloudEvent.fromBusEvent (.ProviderLoaded c i h) fid t).subject =
      some (c ++ "." ++ i) ∧
    (CloudEvent.fromBusEvent (.ProviderRemoved c i h) fid t).subject =
      some (c ++ "." ++ i) ∧
    (CloudEvent.fromBusEvent (.ActorBindingCreated h a c i) fid t).subject =
      some (a ++ "." ++ c ++ "." ++ i) ∧
    (CloudEvent.fromBusEvent (.ActorBindingRemoved h a c i) fid t).subject =
      some (a ++ "." ++ c ++ "." ++ i) ∧
    (CloudEvent.fromBusEvent (.ActorBecameHealthy a h) fid t).subject = some a ∧
    (CloudEvent.fromBusEvent (.ActorBecameUnhealthy a h) fid t).subject = some a := by
  refine ⟨rfl, rfl, rfl, rfl, rfl, rfl, rfl, rfl, rfl, rfl, rfl, rfl, rfl⟩

/-- C1: in the launch flow, once the addressed host's reply parses as a
LaunchAck, the operation fails with the acknowledgement-mismatch error
whenever the ack's actor_id differs from the requested actor or its host
differs from the addressed host id; when both match, the ack is returned
normally. -/
theorem launch_ack_correlation (actor host_id : String) (ack : LaunchAck) :
    (ack.actor_id ≠ actor ∨ ack.host ≠ host_id →
      launchFlow actor host_id (some (some ack)) =
        .error (.unexpectedAck ack.actor_id ack.host)) ∧
    (ack.actor_id = actor → ack.host = host_id →
      launchFlow actor host_id (some (some ack)) = .ok ack) := by
  constructor
  · intro hmis
    simp only [launchFlow, launch_actor_on_host, startActorAckCheck, if_pos hmis]
  · intro ha hh
    have : ¬ (ack.actor_id ≠ actor ∨ ack.host ≠ host_id) := by
      push_neg
      exact ⟨ha, hh⟩
    simp only [launchFlow, launch_actor_on_host, startActorAckCheck, if_neg this]

/-- Witness for C1 at concrete inputs: a correlated ack is returned
normally, a reply naming a different actor fails, and a reply from a
different host fails. -/
theorem launch_ack_correlation_witness :
    launchFlow "MA" "NH" (some (some ⟨"MA", "NH"⟩)) = .ok ⟨"MA", "NH"⟩ ∧
    launchFlow "MA" "NH" (some (some ⟨"MB", "NH"⟩)) =
      .error (.unexpectedAck "MB" "NH") ∧
    launchFlow "MA" "NH" (some (some ⟨"MA", "NX"⟩)) =
      .error (.unexpectedAck "MA" "NX") := by
  refine ⟨(launch_ack_correlation "MA" "NH" ⟨"MA", "NH"⟩).2 rfl rfl,
    (launch_ack_correlation "MA" "NH" ⟨"MB", "NH"⟩).1 (Or.inl (by decide)),
    (launch_ack_correlation "MA" "NH" ⟨"MA", "NX"⟩).1 (Or.inr (by decide))⟩

/-- C9: stop_actor_on_host is fire-and-forget: it publishes a
TerminateCommand for the actor on the host-addressed terminate subject
and returns success exactly when the publish succeeded; the discarded
flush result and any later host behaviour play no part (the function has
no reply input at all). -/
theorem terminate_fire_and_forget (c : Client) (actor_id host_id : String)
    (flushRes : Except LatticeError Unit) :
    (stop_actor_on_host c actor_id host_id (.ok ()) flushRes).1 = .ok () ∧
    (∀ e, (stop_actor_on_host c actor_id host_id (.error e) flushRes).1 = .error e) ∧
    (∀ publishRes flushRes',
      (stop_actor_on_host c actor_id host_id publishRes flushRes').2.1 =
        gen_terminate_actor_subject c host_id ∧
      (stop_actor_on_host c actor_id host_id publishRes flushRes').2.2 =
        TerminateCommand.mk actor_id ∧
      (stop_actor_on_host c actor_id host_id publishRes flushRes').1 =
        (stop_actor_on_host c actor_id host_id publishRes flushRes).1) := by
  refine ⟨rfl, fun e => rfl, fun publishRes flushRes' => ?_⟩
  cases publishRes <;> exact ⟨rfl, rfl, rfl⟩

/-- C3 (code bug): the watch handler installed by Client::watch_events
panics on a message that does not decode, instead of skipping it: an
undecodable envelope payload panics, an envelope whose data field does
not decode as a BusEvent variant panics, while a well-formed message is
delivered to the sink. The panic comes from the two unwrap calls in
src/lib.rs lines 198-199. -/
theorem watch_handler_panics_on_bad_message :
    watchHandler none = .panicked ∧
    watchHandler (some (CloudEvent.mk "1.0" "t" "0.1" "s" "id" "now"
      "application/json" none (.str "not an event"))) = .panicked ∧
    watchHandler (some (CloudEvent.fromBusEvent (.ActorStarted "M1" "N1") "id" "now")) =
      .delivered (.ActorStarted "M1" "N1") := by
  exact ⟨rfl, rfl, rfl⟩

/-- Inserting a reply of a variant the extraction function rejects
anywhere in a probe run leaves the aggregation unchanged. -/
theorem probeAggregate_skip {α : Type}
    (extract : InventoryResponse → Option (String × List α))
    (ir : InventoryResponse) (hir : extract ir = none) :
    ∀ (pre post : List (Option InventoryResponse)) (acc : List (String × List α)),
    probeAggregate extract (pre ++ some ir :: post) acc =
      probeAggregate extract (pre ++ post) acc := by
  intro pre
  induction pre with
  | nil =>
      intro post acc
      simp only [List.nil_append, probeAggregate, hir]
  | cons m pre ih =>
      intro post acc
      cases m with
      | none => simp only [List.cons_append, probeAggregate]
      | some ir' =>
          simp only [List.cons_append, probeAggregate]
          cases hx : extract ir' with
          | none => exact ih post acc
          | some hb => exact ih post (mergeInsert acc hb.1 hb.2)

/-- Inserting a reply that is not a Host profile anywhere in a hosts
probe run leaves the result unchanged. -/
theorem get_hosts_skip (ir : InventoryResponse) (hir : ∀ p, ir ≠ .Host p) :
    ∀ (pre post : List (Option InventoryResponse)),
    get_hosts (pre ++ some ir :: post) = get_hosts (pre ++ post) := by
  intro pre
  induction pre with
  | nil =>
      intro post
      simp only [List.nil_append, get_hosts]
      cases ir with
      | Host p => exact absurd rfl (hir p)
      | Actors h a => cases get_hosts post <;> rfl
      | Bindings h b => cases get_hosts post <;> rfl
      | Capabilities h cs => cases get_hosts post <;> rfl
  | cons m pre ih =>
      intro post
      cases m with
      | none => simp only [List.cons_append, get_hosts]
      | some ir' =>
          simp only [List.cons_append, get_hosts, List.append_eq, ih post]

/-- A malformed reply aborts a probeAggregate run whenever every earlier
reply parsed. -/
theorem probeAggregate_abort {α : Type}
    (extract : InventoryResponse → Option (String × List α)) :
    ∀ (pre post : List (Option InventoryResponse)) (acc : List (String × List α)),
    (∀ m ∈ pre, m.isSome) →
    probeAggregate extract (pre ++ none :: post) acc = .error .decodeError := by
  intro pre
  induction pre with
  | nil => intro post acc _; rfl
  | cons m pre ih =>
      intro post acc hall
      cases m with
      | none => exact absurd (hall none (List.mem_cons_self _ _)) (by simp)
      | some ir =>
          have hrest : ∀ m ∈ pre, m.isSome := fun m hm =>
            hall m (List.mem_cons_of_mem _ hm)
          simp only [List.cons_append, probeAggregate]
          cases hx : extract ir with
          | none => exact ih post acc hrest
          | some hb => exact ih post (mergeInsert acc hb.1 hb.2) hrest

/-- A malformed reply aborts a hosts probe run whenever every earlier
reply parsed. -/
theorem get_hosts_abort :
    ∀ (pre post : List (Option InventoryResponse)),
    (∀ m ∈ pre, m.isSome) →
    get_hosts (pre ++ none :: post) = .error .decodeError := by
  intro pre
  induction pre with
  | nil => intro post _; rfl
  | cons m pre ih =>
      intro post hall
      cases m with
      | none => exact absurd (hall none (List.mem_cons_self _ _)) (by simp)
      | some ir =>
          have hrest : ∀ m ∈ pre, m.isSome := fun m hm =>
            hall m (List.mem_cons_of_mem _ hm)
          simp only [List.cons_append, get_hosts, List.append_eq, ih post hrest]

/-- C10: for every inventory probe, a reply that parses as a valid
InventoryResponse but carries a different variant than the probed kind
contributes nothing and does not fail the probe (the aggregation is
exactly what it would be without that reply), while a malformed reply
aborts the whole probe with a decode error. -/
theorem probe_foreign_variant_discarded
    (pre post : List (Option InventoryResponse)) (ir : InventoryResponse) :
    ((∀ p, ir ≠ .Host p) →
      get_hosts (pre ++ some ir :: post) = get_hosts (pre ++ post)) ∧
    (extractBindings ir = none →
      get_bindings (pre ++ some ir :: post) = get_bindings (pre ++ post)) ∧
    (extractActors ir = none →
      get_actors (pre ++ some ir :: post) = get_actors (pre ++ post)) ∧
    (extractCapabilities ir = none →
      get_capabilities (pre ++ some ir :: post) = get_capabilities (pre ++ post)) ∧
    ((∀ m ∈ pre, m.isSome) →
      get_hosts (pre ++ none :: post) = .error .decodeError ∧
      get_bindings (pre ++ none :: post) = .error .decodeError ∧
      get_actors (pre ++ none :: post) = .error .decodeError ∧
      get_capabilities (pre ++ none :: post) = .error .decodeError) := by
  refine ⟨fun h => get_hosts_skip ir h pre post,
    fun h => probeAggregate_skip extractBindings ir h pre post [],
    fun h => probeAggregate_skip extractActors ir h pre post [],
    fun h => probeAggregate_skip extractCapabilities ir h pre post [],
    fun h => ⟨get_hosts_abort pre post h,
      probeAggregate_abort extractBindings pre post [] h,
      probeAggregate_abort extractActors pre post [] h,
      probeAggregate_abort extractCapabilities pre post [] h⟩⟩

/-- Witness for C10 at concrete inputs: a Bindings reply landing on the
hosts probe is discarded without failing the probe, and a malformed
second reply aborts it. -/
theorem probe_foreign_variant_discarded_witness :
    get_hosts [some (.Host ⟨"N1", [], 7⟩),
      some (.Bindings "N2" []), some (.Host ⟨"N3", [], 9⟩)] =
      get_hosts [some (.Host ⟨"N1", [], 7⟩), some (.Host ⟨"N3", [], 9⟩)] ∧
    get_hosts [some (.Host ⟨"N1", [], 7⟩), none] = .error .decodeError := by
  refine ⟨(probe_foreign_variant_discarded [some (.Host ⟨"N1", [], 7⟩)]
      [some (.Host ⟨"N3", [], 9⟩)] (.Bindings "N2" [])).1 (fun p => by simp),
    ((probe_foreign_variant_discarded [some (.Host ⟨"N1", [], 7⟩)] []
      (.Bindings "N2" [])).2.2.2.2 (by simp)).1⟩

/-- Any key of the merged map is a key of the old map or the inserted
host. -/
theorem mergeInsert_fst_mem {α : Type} :
    ∀ (m : List (String × List α)) (h : String) (b : List α) (x : String),
    x ∈ (mergeInsert m h b).map Prod.fst → x ∈ m.map Prod.fst ∨ x = h := by
  intro m h b
  induction m with
  | nil =>
      intro x hx
      simp only [mergeInsert, List.map_cons, List.map_nil, List.mem_singleton] at hx
      exact Or.inr hx
  | cons p m ih =>
      intro x hx
      obtain ⟨k, v⟩ := p
      by_cases hk : k = h
      · rw [show mergeInsert ((k, v) :: m) h b = (k, v ++ b) :: m from by
          simp [mergeInsert, hk]] at hx
        simp only [List.map_cons, List.mem_cons] at hx
        rcases hx with hx | hx
        · exact Or.inr (hx.trans hk)
        · exact Or.inl (List.mem_cons_of_mem _ hx)
      · rw [show mergeInsert ((k, v) :: m) h b = (k, v) :: mergeInsert m h b from by
          simp [mergeInsert, hk]] at hx
        simp only [List.map_cons, List.mem_cons] at hx
        rcases hx with hx | hx
        · exact Or.inl (by simp [hx])
        · rcases ih x hx with h1 | h1
          · exact Or.inl (List.mem_cons_of_mem _ h1)
          · exact Or.inr h1

/-- Merging preserves uniqueness of the host keys. -/
theorem mergeInsert_nodup {α : Type} :
    ∀ (m : List (String × List α)) (h : String) (b : List α),
    (m.map Prod.fst).Nodup → ((mergeInsert m h b).map Prod.fst).Nodup := by
  intro m h b
  induction m with
  | nil => intro _; simp [mergeInsert]
  | cons p m ih =>
      intro hnd
      simp only [List.map_cons, List.nodup_cons] at hnd
      by_cases hk : p.1 = h
      · simp only [mergeInsert, if_pos hk, List.map_cons, List.nodup_cons]
        exact hnd
      · simp only [mergeInsert, if_neg hk, List.map_cons, List.nodup_cons]
        refine ⟨fun hmem => ?_, ih hnd.2⟩
        rcases mergeInsert_fst_mem m h b p.1 hmem with h1 | h1
        · exact hnd.1 h1
        · exact hk h1

/-- Looking up the merged host returns the old list extended with the new
records. -/
theorem lookupHost_mergeInsert_same {α : Type} :
    ∀ (m : List (String × List α)) (h : String) (b : List α),
    lookupHost (mergeInsert m h b) h = lookupHost m h ++ b := by
  intro m h b
  induction m with
  | nil => simp [mergeInsert, lookupHost]
  | cons p m ih =>
      by_cases hk : p.1 = h
      · simp [mergeInsert, lookupHost, hk]
      · simp [mergeInsert, lookupHost, hk, ih]

/-- Looking up any other host is unaffected by a merge. -/
theorem lookupHost_mergeInsert_other {α : Type} :
    ∀ (m : List (String × List α)) (h h' : String) (b : List α), h' ≠ h →
    lookupHost (mergeInsert m h b) h' = lookupHost m h' := by
  intro m h h' b hne
  induction m with
  | nil =>
      have hne' : h ≠ h' := fun hh => hne hh.symm
      simp [mergeInsert, lookupHost, hne']
  | cons p m ih =>
      obtain ⟨k, v⟩ := p
      have hh' : h ≠ h' := fun e => hne e.symm
      by_cases hk : k = h
      · have hk' : k ≠ h' := fun hh => hne ((hh ▸ hk : h' = h))
        simp [mergeInsert, lookupHost, hk, hk', hh']
      · by_cases hk' : k = h'
        · simp [mergeInsert, lookupHost, hk, hk', hne]
        · simp [mergeInsert, lookupHost, hk, hk', ih]

/-- Soundness of one probe aggregation run: starting from an accumulator
with unique host keys, a successful run yields a map with unique host
keys in which every host's list is its accumulator value followed by the
concatenation, in arrival order, of the record lists of that host's
replies. -/
theorem probeAggregate_ok {α : Type}
    (extract : InventoryResponse → Option (String × List α)) :
    ∀ (msgs : List (Option InventoryResponse)) (acc m : List (String × List α)),
    (acc.map Prod.fst).Nodup →
    probeAggregate extract msgs acc = .ok m →
    (m.map Prod.fst).Nodup ∧
      ∀ h, lookupHost m h = lookupHost acc h ++ repliesFor extract h msgs := by
  intro msgs
  induction msgs with
  | nil =>
      intro acc m hnd hok
      cases hok
      exact ⟨hnd, fun h => by simp [repliesFor]⟩
  | cons om rest ih =>
      intro acc m hnd hok
      cases om with
      | none => exact absurd hok (by simp [probeAggregate])
      | some ir =>
          simp only [probeAggregate] at hok
          cases hx : extract ir with
          | none =>
              rw [hx] at hok
              have := ih acc m hnd hok
              refine ⟨this.1, fun h => ?_⟩
              rw [this.2 h]
              simp [repliesFor, List.filterMap_cons, hx]
          | some hb =>
              rw [hx] at hok
              have := ih (mergeInsert acc hb.1 hb.2) m
                (mergeInsert_nodup acc hb.1 hb.2 hnd) hok
              refine ⟨this.1, fun h => ?_⟩
              rw [this.2 h]
              by_cases hh : hb.1 = h
              · subst hh
                rw [lookupHost_mergeInsert_same]
                simp [repliesFor, List.filterMap_cons, hx, List.append_assoc]
              · rw [lookupHost_mergeInsert_other acc hb.1 h hb.2 (fun he => hh he.symm)]
                simp [repliesFor, List.filterMap_cons, hx, hh]

/-- In a map with unique host keys, a member entry's list is what lookup
returns for its key. -/
theorem lookupHost_of_mem {α : Type} :
    ∀ (m : List (String × List α)), (m.map Prod.fst).Nodup →
    ∀ p ∈ m, lookupHost m p.1 = p.2 := by
  intro m
  induction m with
  | nil => intro _ p hp; cases hp
  | cons q m ih =>
      intro hnd p hp
      obtain ⟨k, v⟩ := q
      simp only [List.map_cons, List.nodup_cons] at hnd
      rcases List.mem_cons.mp hp with hp | hp
      · subst hp
        simp [lookupHost]
      · have hk : k ≠ p.1 := by
          intro he
          exact hnd.1 (he ▸ (List.mem_map.mpr ⟨p, hp, rfl⟩))
        simp only [lookupHost, if_neg hk]
        exact ih hnd.2 p hp

/-- A hosts probe whose replies all parse returns the carried host
profiles as a flat list, in arrival order. -/
theorem get_hosts_allSome :
    ∀ (msgs : List (Option InventoryResponse)), (∀ x ∈ msgs, x.isSome) →
    get_hosts msgs = .ok (hostProfilesIn msgs) := by
  intro msgs
  induction msgs with
  | nil => intro _; rfl
  | cons om rest ih =>
      intro hall
      cases om with
      | none => exact absurd (hall none (List.mem_cons_self _ _)) (by simp)
      | some ir =>
          have hrest := ih (fun m hm => hall m (List.mem_cons_of_mem _ hm))
          cases ir <;> simp [get_hosts, hrest, hostProfilesIn, List.filterMap_cons]

/-- C6: for every probe of a list-valued inventory kind (actors,
bindings, capabilities), a successful run yields a map with exactly one
entry per replying host, whose list is the concatenation, in arrival
order, of the record lists of that host's replies (so repeated host
entries are additive: nothing lost, nothing duplicated, nothing
overwritten). -/
theorem probe_merge_concatenates (msgs : List (Option InventoryResponse)) :
    (∀ m : List (String × List Binding), get_bindings msgs = .ok m →
      (m.map Prod.fst).Nodup ∧
      ∀ h, lookupHost m h = repliesFor extractBindings h msgs) ∧
    (∀ m : List (String × List ActorClaims), get_actors msgs = .ok m →
      (m.map Prod.fst).Nodup ∧
      ∀ h, lookupHost m h = repliesFor extractActors h msgs) ∧
    (∀ m : List (String × List HostedCapability), get_capabilities msgs = .ok m →
      (m.map Prod.fst).Nodup ∧
      ∀ h, lookupHost m h = repliesFor extractCapabilities h msgs) := by
  refine ⟨fun m hok => ?_, fun m hok => ?_, fun m hok => ?_⟩ <;>
  · have := probeAggregate_ok _ msgs [] m (by simp) hok
    exact ⟨this.1, fun h => by simpa [lookupHost] using this.2 h⟩

/-- Witness for C6 at a concrete input: two Bindings replies from host
N1 merge into a single entry holding both records in arrival order. -/
theorem probe_merge_concatenates_witness :
    (([("N1", [Binding.mk "MA" "cap" "default" [],
        Binding.mk "MB" "cap" "default" []])].map Prod.fst).Nodup ∧
      lookupHost [("N1", [Binding.mk "MA" "cap" "default" [],
        Binding.mk "MB" "cap" "default" []])] "N1" =
      repliesFor extractBindings "N1"
        [some (.Bindings "N1" [Binding.mk "MA" "cap" "default" []]),
         some (.Bindings "N1" [Binding.mk "MB" "cap" "default" []])]) := by
  have h := (probe_merge_concatenates
    [some (.Bindings "N1" [Binding.mk "MA" "cap" "default" []]),
     some (.Bindings "N1" [Binding.mk "MB" "cap" "default" []])]).1
    [("N1", [Binding.mk "MA" "cap" "default" [],
      Binding.mk "MB" "cap" "default" []])] rfl
  exact ⟨h.1, h.2 "N1"⟩

/-- Counterexample for C4 as stated: the hosts probe does not return a
map keyed by the replying host's id — two Host replies bearing the same
host id yield a flat list with that id appearing twice, which no
host-keyed map can represent. -/
theorem get_hosts_not_host_keyed :
    get_hosts [some (.Host ⟨"N1", [], 1⟩), some (.Host ⟨"N1", [], 2⟩)] =
      .ok [⟨"N1", [], 1⟩, ⟨"N1", [], 2⟩] ∧
    ¬ (([(⟨"N1", [], 1⟩ : HostProfile), ⟨"N1", [], 2⟩].map HostProfile.id).Nodup) := by
  exact ⟨rfl, by decide⟩

/-- C4 as amended: the actors, bindings and capabilities probes return,
on success, a map keyed by the replying host's id with that host's
records collected in a list under the key; the hosts probe instead
returns a flat list of the replying hosts' profiles in arrival order,
not keyed by host id. -/
theorem probe_result_shape :
    (∀ msgs, (∀ x ∈ msgs, x.isSome) →
      get_hosts msgs = .ok (hostProfilesIn msgs)) ∧
    (∀ msgs m, get_bindings msgs = .ok m →
      ∀ p ∈ m, p.2 = repliesFor extractBindings p.1 msgs) ∧
    (∀ msgs m, get_actors msgs = .ok m →
      ∀ p ∈ m, p.2 = repliesFor extractActors p.1 msgs) ∧
    (∀ msgs m, get_capabilities msgs = .ok m →
      ∀ p ∈ m, p.2 = repliesFor extractCapabilities p.1 msgs) := by
  refine ⟨get_hosts_allSome, fun msgs m hok p hp => ?_, fun msgs m hok p hp => ?_,
    fun msgs m hok p hp => ?_⟩ <;>
  · have hs := probeAggregate_ok _ msgs [] m (by simp) hok
    rw [← lookupHost_of_mem m hs.1 p hp]
    simpa [lookupHost] using hs.2 p.1

/-- Witness for C4 as amended, at concrete inputs. -/
theorem probe_result_shape_witness :
    get_hosts [some (.Host ⟨"N1", [], 1⟩), some (.Bindings "N2" [])] =
      .ok (hostProfilesIn [some (.Host ⟨"N1", [], 1⟩), some (.Bindings "N2" [])]) ∧
    ([Binding.mk "MA" "cap" "default" []] : List Binding) =
      repliesFor extractBindings "N2"
        [some (.Bindings "N2" [Binding.mk "MA" "cap" "default" []])] := by
  refine ⟨probe_result_shape.1 _ (by simp), ?_⟩
  have := probe_result_shape.2.1
    [some (.Bindings "N2" [Binding.mk "MA" "cap" "default" []])]
    [("N2", [Binding.mk "MA" "cap" "default" []])] rfl
    ("N2", [Binding.mk "MA" "cap" "default" []]) (by simp)
  exact this

/-- Counterexample for C5 as stated: with the CLI default call timeout of
600 ms, the addressed launch waits up to 5000 ms — a fixed bound that is
not the caller-supplied call timeout and exceeds it. -/
theorem launch_timeout_not_call_timeout :
    Client.mk 600 none = Client.mk 600 none ∧
    launchWaitMs (Client.mk 600 none) = 5000 ∧
    probeWaitMs (Client.mk 600 none) = 600 ∧
    ¬ launchWaitMs (Client.mk 600 none) ≤ (Client.mk 600 none).timeoutMs := by
  exact ⟨rfl, rfl, rfl, by decide⟩

/-- C5 as amended: the inventory probes and the launch auction are
bounded by the caller-supplied call timeout and, when it elapses, return
the partial results accumulated so far (every run whose arrived replies
all parse succeeds with what arrived); the addressed launch is bounded by
the fixed 5-second AUCTION_TIMEOUT_SECONDS wait — not the caller's call
timeout — and returns a timeout error when no reply arrives in time; no
operation's wait is unbounded. -/
theorem request_reply_bounded (c : Client) :
    probeWaitMs c = c.timeoutMs ∧
    auctionWaitMs c = c.timeoutMs ∧
    launchWaitMs c = AUCTION_TIMEOUT_SECONDS * 1000 ∧
    launch_actor_on_host none = .error .timeout ∧
    (∀ msgs : List (Option LaunchAuctionResponse), (∀ x ∈ msgs, x.isSome) →
      (perform_launch_auction msgs).isOk) ∧
    (∀ msgs : List (Option InventoryResponse), (∀ x ∈ msgs, x.isSome) →
      (get_hosts msgs).isOk ∧ (get_bindings msgs).isOk ∧
      (get_actors msgs).isOk ∧ (get_capabilities msgs).isOk) := by
  refine ⟨rfl, rfl, rfl, rfl, fun msgs hall => ?_, fun msgs hall => ?_⟩
  · induction msgs with
    | nil => rfl
    | cons om rest ih =>
        cases om with
        | none => exact absurd (hall none (List.mem_cons_self _ _)) (by simp)
        | some r =>
            have hrest := ih (fun m hm => hall m (List.mem_cons_of_mem _ hm))
            simp only [perform_launch_auction]
            cases hr : perform_launch_auction rest with
            | error e => rw [hr] at hrest; cases hrest
            | ok results => simp [Except.isOk, Except.toBool]
  · refine ⟨by rw [get_hosts_allSome msgs hall]; rfl, ?_, ?_, ?_⟩ <;>
    · have : ∀ {α : Type} (extract : InventoryResponse → Option (String × List α))
          (acc : List (String × List α)),
          (probeAggregate extract msgs acc).isOk := by
        intro α extract
        induction msgs with
        | nil => intro acc; rfl
        | cons om rest ih =>
            intro acc
            cases om with
            | none => exact absurd (hall none (List.mem_cons_self _ _)) (by simp)
            | some ir =>
                simp only [probeAggregate]
                cases hx : extract ir with
                | none => exact ih (fun m hm => hall m (List.mem_cons_of_mem _ hm)) acc
                | some hb =>
                    exact ih (fun m hm => hall m (List.mem_cons_of_mem _ hm))
                      (mergeInsert acc hb.1 hb.2)
      exact this _ []

/-- Appending a common prefix string is cancellable. -/
theorem string_append_left_cancel (s a b : String) (h : s ++ a = s ++ b) : a = b := by
  have hd : (s ++ a).data = (s ++ b).data := by rw [h]
  simp only [String.data_append, List.append_cancel_left_eq] at hd
  exact String.ext hd

/-- The characters of a dotted subject: the root's characters followed by
each part's characters, every part preceded by a dot. -/
theorem dottedSubject_data (parts : List String) :
    ∀ root : String,
    (dottedSubject root parts).data = root.data ++ joinTail (parts.map String.data) := by
  induction parts with
  | nil => intro root; simp [dottedSubject, joinTail]
  | cons p ps ih =>
      intro root
      show (dottedSubject (root ++ "." ++ p) ps).data = _
      rw [ih (root ++ "." ++ p)]
      simp [String.data_append, joinTail]

/-- A dotted tail is empty or starts with a dot. -/
theorem joinTail_shape (ps : List (List Char)) :
    joinTail ps = [] ∨ ∃ t, joinTail ps = '.' :: t := by
  cases ps with
  | nil => exact Or.inl rfl
  | cons p ps => exact Or.inr ⟨p ++ joinTail ps, by simp [joinTail]⟩

/-- Two concatenations agree segment-wise when each left part is dot-free
and each right part is empty or dot-headed. -/
theorem dotfree_append_inj :
    ∀ (a b x y : List Char), '.' ∉ a → '.' ∉ b →
    (x = [] ∨ ∃ t, x = '.' :: t) → (y = [] ∨ ∃ t, y = '.' :: t) →
    a ++ x = b ++ y → a = b ∧ x = y := by
  intro a
  induction a with
  | nil =>
      intro b x y _ hb hx _ heq
      cases b with
      | nil => exact ⟨rfl, heq⟩
      | cons c b' =>
          exfalso
          rcases hx with hx | ⟨t, hx⟩ <;> subst hx
          · exact (List.cons_ne_nil c (b' ++ y)) (by simpa using heq.symm)
          · have hc : c = '.' := by simpa using (congrArg (·.head?) heq.symm)
            exact hb (hc ▸ List.mem_cons_self c b')
  | cons c a' ih =>
      intro b x y ha hb hx hy heq
      cases b with
      | nil =>
          exfalso
          rcases hy with hy | ⟨t, hy⟩ <;> subst hy
          · exact (List.cons_ne_nil c (a' ++ x)) (by simp at heq)
          · have hc : c = '.' := by simpa using (congrArg (·.head?) heq)
            exact ha (hc ▸ List.mem_cons_self c a')
      | cons d b' =>
          simp only [List.cons_append, List.cons.injEq] at heq
          obtain ⟨hcd, htail⟩ := heq
          have ha' : '.' ∉ a' := fun hm => ha (List.mem_cons_of_mem _ hm)
          have hb' : '.' ∉ b' := fun hm => hb (List.mem_cons_of_mem _ hm)
          obtain ⟨h1, h2⟩ := ih b' x y ha' hb' hx hy htail
          exact ⟨by rw [hcd, h1], h2⟩

/-- A dotted tail determines its dot-free segments. -/
theorem joinTail_inj :
    ∀ ps qs : List (List Char), (∀ p ∈ ps, '.' ∉ p) → (∀ q ∈ qs, '.' ∉ q) →
    joinTail ps = joinTail qs → ps = qs := by
  intro ps
  induction ps with
  | nil =>
      intro qs _ _ heq
      cases qs with
      | nil => rfl
      | cons q qs' => simp [joinTail] at heq
  | cons p ps' ih =>
      intro qs hp hq heq
      cases qs with
      | nil => simp [joinTail] at heq
      | cons q qs' =>
          simp only [joinTail, List.map_cons, List.flatten_cons, List.cons_append,
            List.cons.injEq, true_and] at heq
          have hpd : '.' ∉ p := hp p (List.mem_cons_self _ _)
          have hqd : '.' ∉ q := hq q (List.mem_cons_self _ _)
          obtain ⟨h1, h2⟩ := dotfree_append_inj p q (joinTail ps') (joinTail qs')
            hpd hqd (joinTail_shape _) (joinTail_shape _) heq
          have := ih qs' (fun r hr => hp r (List.mem_cons_of_mem _ hr))
            (fun r hr => hq r (List.mem_cons_of_mem _ hr)) h2
          rw [h1, this]

/-- A dotted subject determines its root and parts when every segment is
dot-free. -/
theorem dottedSubject_inj (root root' : String) (parts parts' : List String)
    (h1 : '.' ∉ root.data) (h2 : ∀ p ∈ parts, '.' ∉ p.data)
    (h1' : '.' ∉ root'.data) (h2' : ∀ p ∈ parts', '.' ∉ p.data)
    (heq : dottedSubject root parts = dottedSubject root' parts') :
    root = root' ∧ parts = parts' := by
  have hd : (dottedSubject root parts).data = (dottedSubject root' parts').data := by
    rw [heq]
  rw [dottedSubject_data parts root, dottedSubject_data parts' root'] at hd
  obtain ⟨hroot, htail⟩ := dotfree_append_inj root.data root'.data _ _ h1 h1'
    (joinTail_shape _) (joinTail_shape _) hd
  refine ⟨String.ext hroot, ?_⟩
  have hmap := joinTail_inj (parts.map String.data) (parts'.map String.data)
    (fun p hp => by obtain ⟨q, hq, rfl⟩ := List.mem_map.mp hp; exact h2 q hq)
    (fun p hp => by obtain ⟨q, hq, rfl⟩ := List.mem_map.mp hp; exact h2' q hq) htail
  exact List.map_injective_iff.mpr (fun s t hst => String.ext hst) hmap

/-- C7: subject construction is deterministic and injective under a fixed
namespace setting: two distinct (root, parts) inputs whose segments are
all non-empty and dot-free produce different subjects, which have the
form namespace.wasmbus.root.parts when the namespace is set and
wasmbus.root.parts otherwise. -/
theorem gen_subject_injective (c : Client) (root root' : String)
    (parts parts' : List String)
    (hr : segOk root) (hp : ∀ p ∈ parts, segOk p)
    (hr' : segOk root') (hp' : ∀ p ∈ parts', segOk p)
    (hne : (root, parts) ≠ (root', parts')) :
    gen_subject c (dottedSubject root parts) ≠
      gen_subject c (dottedSubject root' parts') ∧
    (∀ n s, gen_subject (Client.mk c.timeoutMs (some n)) s = n ++ ".wasmbus." ++ s) ∧
    (∀ s, gen_subject (Client.mk c.timeoutMs none) s = "wasmbus." ++ s) := by
  refine ⟨fun heq => ?_, fun n s => rfl, fun s => rfl⟩
  apply hne
  have hsub : dottedSubject root parts = dottedSubject root' parts' := by
    cases hns : c.ns with
    | none =>
        simp only [gen_subject, hns] at heq
        exact string_append_left_cancel "wasmbus." _ _ heq
    | some s =>
        simp only [gen_subject, hns] at heq
        exact string_append_left_cancel (s ++ ".wasmbus.") _ _ heq
  obtain ⟨e1, e2⟩ := dottedSubject_inj root root' parts parts'
    hr.2 (fun p hpp => (hp p hpp).2) hr'.2 (fun p hpp => (hp' p hpp).2) hsub
  rw [e1, e2]

/-- Witness for C7 at concrete inputs: distinct part lists with the same
root give distinct subjects. -/
theorem gen_subject_injective_witness :
    gen_subject (Client.mk 600 none) (dottedSubject "inventory" ["hosts"]) ≠
      gen_subject (Client.mk 600 none) (dottedSubject "inventory" ["actors"]) := by
  exact (gen_subject_injective (Client.mk 600 none) "inventory" "inventory"
    ["hosts"] ["actors"] (by decide) (by decide) (by decide) (by decide)
    (by decide)).1

/-- Witness for C5 as amended, at concrete inputs: a client constructed
with a 600 ms call timeout, an auction run with one parsed reply, and a
hosts probe with one parsed reply. -/
theorem request_reply_bounded_witness :
    probeWaitMs (Client.mk 600 none) = 600 ∧
    launchWaitMs (Client.mk 600 none) = AUCTION_TIMEOUT_SECONDS * 1000 ∧
    (perform_launch_auction [some (LaunchAuctionResponse.mk "NA")]).isOk ∧
    (get_hosts [some (.Host ⟨"N1", [], 1⟩)]).isOk := by
  refine ⟨(request_reply_bounded (Client.mk 600 none)).1,
    (request_reply_bounded (Client.mk 600 none)).2.2.1, ?_, ?_⟩
  · exact (request_reply_bounded (Client.mk 600 none)).2.2.2.2.1
      [some (LaunchAuctionResponse.mk "NA")] (by simp)
  · exact ((request_reply_bounded (Client.mk 600 none)).2.2.2.2.2
      [some (.Host ⟨"N1", [], 1⟩)] (by simp)).1
